import Mathlib

/-!
Shallow embedding of the openclipboard core (Rust) into Lean 4, together with
theorems settling the frozen claims about the frame codec, the replay
protector, the pairing confirmation code, the clipboard history, the peer
registry, and the session handshake.

Bytes are modelled as `Nat` values (< 256 where the Rust type is `u8`); byte
strings as `List Nat`; Rust `&str` values as Lean `String` (their UTF-8 byte
sequence is `strBytes`).  Fallible Rust functions returning `anyhow::Result`
become `Except String` / `Option` valued functions.  External crates
(serde_json, base64, blake3, ed25519-dalek) are modelled as abstract function
parameters: the claims under study are about the repository's own control
flow around them, not about the crypto primitives themselves.
-/

namespace OpenClipboard

/-! ## Frame codec (src/core/src/protocol.rs) -/

/-- `MAX_PAYLOAD_LEN` from protocol.rs: 4 MiB payload cap. -/
def MAX_PAYLOAD_LEN : Nat := 4 * 1024 * 1024

/-- Wire frame, from protocol.rs (`struct Frame`).  Fields `version`,
`msg_type` are `u8`, `stream_id` is `u32`, `seq` is `u64` in the source;
the corresponding bounds appear as hypotheses of the theorems. -/
structure Frame where
  version : Nat
  msg_type : Nat
  stream_id : Nat
  seq : Nat
  payload : List Nat
deriving DecidableEq

/-- Big-endian byte rendering of `n` on `w` bytes (`put_u32`/`put_u64`). -/
def beBytes : Nat → Nat → List Nat
  | 0, _ => []
  | w + 1, n => beBytes w (n / 256) ++ [n % 256]

/-- Big-endian reading of a byte list (`get_u32`/`get_u64`). -/
def beRead (l : List Nat) : Nat := l.foldl (fun a b => 256 * a + b) 0

/-- `encode_frame` from protocol.rs: 18-byte big-endian header then payload.
The `% 2 ^ 32` mirrors the `f.payload.len() as u32` cast in the source. -/
def encode_frame (f : Frame) : List Nat :=
  [f.version, f.msg_type] ++ beBytes 4 f.stream_id ++ beBytes 8 f.seq
    ++ beBytes 4 (f.payload.length % 2 ^ 32) ++ f.payload

/-- The `payload_len` field a byte string declares (bytes 14..18, big-endian),
as read by `decode_frame`. -/
def declaredLen (bytes : List Nat) : Nat := beRead ((bytes.drop 14).take 4)

/-- `decode_frame` from protocol.rs, translated clause by clause:
reject input shorter than the 18-byte header, reject a declared length above
`MAX_PAYLOAD_LEN`, reject a declared length above the remaining input,
otherwise return the parsed frame (trailing bytes beyond the declared
payload are not read). -/
def decode_frame (bytes : List Nat) : Except String Frame :=
  if bytes.length < 18 then .error "insufficient data"
  else
    let version := beRead ((bytes.drop 0).take 1)
    let msg_type := beRead ((bytes.drop 1).take 1)
    let stream_id := beRead ((bytes.drop 2).take 4)
    let seq := beRead ((bytes.drop 6).take 8)
    let len := beRead ((bytes.drop 14).take 4)
    if len > MAX_PAYLOAD_LEN then .error "payload too large"
    else if (bytes.drop 18).length < len then .error "payload truncated"
    else .ok ⟨version, msg_type, stream_id, seq, (bytes.drop 18).take len⟩

theorem beBytes_length (w n : Nat) : (beBytes w n).length = w := by
  induction w generalizing n with
  | zero => simp [beBytes]
  | succ w ih => simp [beBytes, ih]

theorem beRead_append_singleton (l : List Nat) (b : Nat) :
    beRead (l ++ [b]) = 256 * beRead l + b := by
  simp [beRead, List.foldl_append]

theorem beRead_beBytes (w n : Nat) (h : n < 256 ^ w) :
    beRead (beBytes w n) = n := by
  induction w generalizing n with
  | zero =>
    simp only [pow_zero, Nat.lt_one_iff] at h
    simp [beBytes, beRead, h]
  | succ w ih =>
    have hdiv : n / 256 < 256 ^ w := by
      rw [Nat.div_lt_iff_lt_mul (by norm_num)]
      calc n < 256 ^ (w + 1) := h
        _ = 256 ^ w * 256 := by ring
    rw [beBytes, beRead_append_singleton, ih _ hdiv]
    omega

theorem beRead_singleton (b : Nat) : beRead [b] = b := by
  simp [beRead]

theorem encode_frame_length (f : Frame) :
    (encode_frame f).length = 18 + f.payload.length := by
  simp [encode_frame, beBytes_length]
  omega

/-- C4: for every frame whose fields respect the Rust types (`u8`/`u32`/`u64`)
and whose payload is at most 4 MiB, `decode_frame (encode_frame f)` succeeds
and returns `f` (round-trip identity of the frame codec). -/
theorem decode_encode_frame (f : Frame)
    (hv : f.version < 256) (ht : f.msg_type < 256)
    (hsid : f.stream_id < 2 ^ 32) (hq : f.seq < 2 ^ 64)
    (hp : f.payload.length ≤ MAX_PAYLOAD_LEN) :
    decode_frame (encode_frame f) = .ok f := by
  obtain ⟨v, t, sid, sq, P⟩ := f
  simp only at hsid hq hp
  have hplt : P.length < 2 ^ 32 :=
    lt_of_le_of_lt hp (by norm_num [MAX_PAYLOAD_LEN])
  have hpm : P.length % 2 ^ 32 = P.length := Nat.mod_eq_of_lt hplt
  have hB : encode_frame ⟨v, t, sid, sq, P⟩
      = v :: t :: (beBytes 4 sid ++ (beBytes 8 sq
        ++ (beBytes 4 (P.length % 2 ^ 32) ++ P))) := by
    simp [encode_frame]
  have hlen : (encode_frame ⟨v, t, sid, sq, P⟩).length = 18 + P.length :=
    encode_frame_length _
  have h2 : (encode_frame ⟨v, t, sid, sq, P⟩).drop 2
      = beBytes 4 sid ++ (beBytes 8 sq ++ (beBytes 4 (P.length % 2 ^ 32) ++ P)) := by
    rw [hB]; rfl
  have h6 : (encode_frame ⟨v, t, sid, sq, P⟩).drop 6
      = beBytes 8 sq ++ (beBytes 4 (P.length % 2 ^ 32) ++ P) := by
    rw [show (6 : Nat) = 2 + 4 from rfl, ← List.drop_drop, h2,
      List.drop_left' (beBytes_length 4 sid)]
  have h14 : (encode_frame ⟨v, t, sid, sq, P⟩).drop 14
      = beBytes 4 (P.length % 2 ^ 32) ++ P := by
    rw [show (14 : Nat) = 6 + 8 from rfl, ← List.drop_drop, h6,
      List.drop_left' (beBytes_length 8 sq)]
  have h18 : (encode_frame ⟨v, t, sid, sq, P⟩).drop 18 = P := by
    rw [show (18 : Nat) = 14 + 4 from rfl, ← List.drop_drop, h14,
      List.drop_left' (beBytes_length 4 _)]
  have t0 : ((encode_frame ⟨v, t, sid, sq, P⟩).drop 0).take 1 = [v] := by
    rw [List.drop_zero, hB]; rfl
  have t1 : ((encode_frame ⟨v, t, sid, sq, P⟩).drop 1).take 1 = [t] := by
    rw [hB]; rfl
  have t2 : ((encode_frame ⟨v, t, sid, sq, P⟩).drop 2).take 4 = beBytes 4 sid := by
    rw [h2]; exact List.take_left' (beBytes_length 4 sid)
  have t6 : ((encode_frame ⟨v, t, sid, sq, P⟩).drop 6).take 8 = beBytes 8 sq := by
    rw [h6]; exact List.take_left' (beBytes_length 8 sq)
  have t14 : ((encode_frame ⟨v, t, sid, sq, P⟩).drop 14).take 4
      = beBytes 4 (P.length % 2 ^ 32) := by
    rw [h14]; exact List.take_left' (beBytes_length 4 _)
  have hlenread : beRead (beBytes 4 (P.length % 2 ^ 32)) = P.length := by
    rw [beRead_beBytes 4 _ (by norm_num; omega), hpm]
  rw [decode_frame, if_neg (by omega)]
  simp only [t0, t1, t2, t6, t14, h18, hlenread, beRead_singleton]
  rw [if_neg (by omega), if_neg (by omega)]
  rw [beRead_beBytes 4 sid (by norm_num; omega),
    beRead_beBytes 8 sq (by norm_num; omega), List.take_length]

/-- Witness for the round-trip theorem at a concrete frame. -/
theorem decode_encode_frame_witness :
    decode_frame (encode_frame ⟨0, 2, 1, 42, [104, 105]⟩)
      = .ok ⟨0, 2, 1, 42, [104, 105]⟩ :=
  decode_encode_frame ⟨0, 2, 1, 42, [104, 105]⟩ (by decide) (by decide)
    (by decide) (by decide) (by decide)

/-- Success equation for `decode_frame`: with at least the 18-byte header, a
declared length within the cap, and enough remaining bytes, decoding returns
the frame read off the input. -/
theorem decode_frame_eq_ok (bytes : List Nat) (h1 : 18 ≤ bytes.length)
    (h2 : declaredLen bytes ≤ MAX_PAYLOAD_LEN)
    (h3 : declaredLen bytes ≤ bytes.length - 18) :
    decode_frame bytes = .ok ⟨beRead ((bytes.drop 0).take 1),
      beRead ((bytes.drop 1).take 1), beRead ((bytes.drop 2).take 4),
      beRead ((bytes.drop 6).take 8),
      (bytes.drop 18).take (declaredLen bytes)⟩ := by
  simp only [declaredLen] at h2 h3 ⊢
  rw [decode_frame, if_neg (by omega)]
  simp only [List.length_drop]
  rw [if_neg (by omega), if_neg (by omega)]

/-- C5: `decode_frame` rejects input shorter than the 18-byte header, a
declared `payload_len` above the 4 MiB cap, and a declared `payload_len`
exceeding the bytes remaining after the header.  It is a total Lean function
(defined for every input), which models panic-freedom on arbitrary input. -/
theorem decode_frame_rejects (bytes : List Nat) :
    (bytes.length < 18 → decode_frame bytes = .error "insufficient data") ∧
    (18 ≤ bytes.length → MAX_PAYLOAD_LEN < declaredLen bytes →
      decode_frame bytes = .error "payload too large") ∧
    (18 ≤ bytes.length → declaredLen bytes ≤ MAX_PAYLOAD_LEN →
      bytes.length - 18 < declaredLen bytes →
      decode_frame bytes = .error "payload truncated") := by
  refine ⟨fun h => ?_, fun h1 h2 => ?_, fun h1 h2 h3 => ?_⟩
  · rw [decode_frame, if_pos h]
  · simp only [declaredLen] at h2
    rw [decode_frame, if_neg (by omega)]
    simp only []
    rw [if_pos (by omega)]
  · simp only [declaredLen] at h2 h3
    rw [decode_frame, if_neg (by omega)]
    simp only [List.length_drop]
    rw [if_neg (by omega), if_pos (by omega)]

/-- Witness for the rejection theorem: a short input, an 18-byte header
declaring `payload_len` = 4 MiB + 1 (the boundary case), and an 18-byte
header declaring a 5-byte payload with no payload bytes following. -/
theorem decode_frame_rejects_witness :
    decode_frame [0, 2] = .error "insufficient data" ∧
    decode_frame [0, 2, 0, 0, 0, 1, 0, 0, 0, 0, 0, 0, 0, 1, 0, 64, 0, 1]
      = .error "payload too large" ∧
    decode_frame [0, 2, 0, 0, 0, 1, 0, 0, 0, 0, 0, 0, 0, 1, 0, 0, 0, 5]
      = .error "payload truncated" :=
  ⟨(decode_frame_rejects [0, 2]).1 (by decide),
   (decode_frame_rejects _).2.1 (by decide) (by decide),
   (decode_frame_rejects _).2.2 (by decide) (by decide) (by decide)⟩

/-- C10: `decode_frame` succeeds on every input with at least the 18-byte
header, a declared `payload_len` at most 4 MiB, and at least that many bytes
after the header: the version and msg_type bytes are not validated (any
values are accepted), and trailing bytes beyond the declared payload are
ignored, both in the returned payload and in the decode outcome. -/
theorem decode_frame_accepts (bytes : List Nat)
    (h1 : 18 ≤ bytes.length)
    (h2 : declaredLen bytes ≤ MAX_PAYLOAD_LEN)
    (h3 : declaredLen bytes ≤ bytes.length - 18) :
    (∃ f, decode_frame bytes = .ok f
      ∧ f.payload = (bytes.drop 18).take (declaredLen bytes)) ∧
    (∀ v t, ∃ f, decode_frame (v :: t :: bytes.drop 2) = .ok f
      ∧ f.version = v ∧ f.msg_type = t
      ∧ f.payload = (bytes.drop 18).take (declaredLen bytes)) ∧
    (∀ extra, decode_frame (bytes ++ extra) = decode_frame bytes) := by
  refine ⟨⟨_, decode_frame_eq_ok bytes h1 h2 h3, rfl⟩, fun v t => ?_, fun extra => ?_⟩
  · have hd2 : (v :: t :: bytes.drop 2).drop 2 = bytes.drop 2 := rfl
    have hlen2 : (v :: t :: bytes.drop 2).length = bytes.length := by
      simp only [List.length_cons, List.length_drop]; omega
    have hd14 : (v :: t :: bytes.drop 2).drop 14 = bytes.drop 14 := by
      rw [show (14 : Nat) = 2 + 12 from rfl, ← List.drop_drop, hd2,
        List.drop_drop]
    have hd18 : (v :: t :: bytes.drop 2).drop 18 = bytes.drop 18 := by
      rw [show (18 : Nat) = 2 + 16 from rfl, ← List.drop_drop, hd2,
        List.drop_drop]
    have hdecl : declaredLen (v :: t :: bytes.drop 2) = declaredLen bytes := by
      rw [declaredLen, declaredLen, hd14]
    refine ⟨_, decode_frame_eq_ok _ (by omega) (by rw [hdecl]; exact h2)
      (by rw [hdecl, hlen2]; exact h3), ?_, ?_, ?_⟩
    · simp [beRead_singleton]
    · simp [beRead_singleton]
    · rw [hd18, hdecl]
  · have hdA : ∀ k, k ≤ 18 → (bytes ++ extra).drop k = bytes.drop k ++ extra :=
      fun k hk => List.drop_append_of_le_length (by omega)
    have htake : ∀ k m, k + m ≤ 18 →
        ((bytes ++ extra).drop k).take m = (bytes.drop k).take m := by
      intro k m hkm
      rw [hdA k (by omega), List.take_append_of_le_length
        (by simp only [List.length_drop]; omega)]
    have hdecl : declaredLen (bytes ++ extra) = declaredLen bytes := by
      rw [declaredLen, declaredLen, htake 14 4 (by omega)]
    have hpl : ((bytes ++ extra).drop 18).take (declaredLen (bytes ++ extra))
        = (bytes.drop 18).take (declaredLen bytes) := by
      rw [hdecl, hdA 18 (by omega), List.take_append_of_le_length
        (by simp only [List.length_drop]; omega)]
    rw [decode_frame_eq_ok bytes h1 h2 h3,
      decode_frame_eq_ok (bytes ++ extra)
        (by simp only [List.length_append]; omega)
        (by rw [hdecl]; exact h2)
        (by rw [hdecl]; simp only [List.length_append]; omega)]
    rw [hpl, htake 0 1 (by omega), htake 1 1 (by omega), htake 2 4 (by omega),
      htake 6 8 (by omega)]

/-- Witness for the acceptance theorem: a header with unknown version 7 and
unknown msg_type 200, declared payload length 1, and one trailing byte beyond
the declared payload. -/
theorem decode_frame_accepts_witness :
    (∃ f, decode_frame [7, 200, 0, 0, 0, 1, 0, 0, 0, 0, 0, 0, 0, 1, 0, 0, 0, 1, 5, 9]
        = .ok f
      ∧ f.payload = (([7, 200, 0, 0, 0, 1, 0, 0, 0, 0, 0, 0, 0, 1, 0, 0, 0, 1, 5, 9] :
          List Nat).drop 18).take
          (declaredLen [7, 200, 0, 0, 0, 1, 0, 0, 0, 0, 0, 0, 0, 1, 0, 0, 0, 1, 5, 9])) :=
  (decode_frame_accepts [7, 200, 0, 0, 0, 1, 0, 0, 0, 0, 0, 0, 0, 1, 0, 0, 0, 1, 5, 9]
    (by decide) (by decide) (by decide)).1

/-! ## Replay protector (src/core/src/replay.rs) -/

/-- The `while q.len() > cap { q.pop_front() }` loop shared by the replay
protector and the clipboard history: drop elements from the front while the
list is longer than `cap`. -/
def evictFront (cap : Nat) (l : List α) : List α :=
  if _h : cap < l.length then evictFront cap l.tail else l
termination_by l.length
decreasing_by simp only [List.length_tail]; omega

/-- The eviction loop keeps exactly the newest `cap` elements: it equals
dropping `l.length - cap` elements from the front (oldest first). -/
theorem evictFront_eq_drop (cap : Nat) (l : List α) :
    evictFront cap l = l.drop (l.length - cap) := by
  induction l using evictFront.induct cap with
  | case1 l h ih =>
    rw [evictFront, dif_pos h, ih]
    cases l with
    | nil => simp at h
    | cons a l2 =>
      simp only [List.tail_cons, List.length_cons]
      rw [show l2.length + 1 - cap = (l2.length - cap) + 1 by
        simp only [List.length_cons] at h; omega]
      rfl
  | case2 l h =>
    rw [evictFront, dif_neg h]
    rw [show l.length - cap = 0 by omega, List.drop_zero]

/-- `MemoryReplayProtector` from replay.rs: the per-peer capacity plus the
per-peer nonce FIFO (front = oldest).  An absent peer maps to the empty
queue, mirroring the `entry(..).or_default()` access in the source. -/
structure ReplayState where
  per_peer_capacity : Nat
  map : String → List (List Nat)

/-- `MemoryReplayProtector::new`: the capacity is clamped to a minimum of 1
(`per_peer_capacity.max(1)`). -/
def ReplayState.new (per_peer_capacity : Nat) : ReplayState :=
  ⟨Nat.max per_peer_capacity 1, fun _ => []⟩

/-- `check_and_store` from replay.rs: reject a nonce that is not exactly 32
bytes, reject a nonce already present in the peer's FIFO, otherwise push it
at the back and evict from the front while the FIFO exceeds the capacity. -/
def check_and_store (rp : ReplayState) (peer_id : String) (nonce : List Nat) :
    Except String ReplayState :=
  if nonce.length ≠ 32 then .error "invalid nonce length for replay check"
  else if nonce ∈ rp.map peer_id then .error "replayed hello nonce"
  else
    .ok ⟨rp.per_peer_capacity,
      fun p => if p = peer_id
        then evictFront rp.per_peer_capacity (rp.map peer_id ++ [nonce])
        else rp.map p⟩

/-- C3: `check_and_store` fails on a nonce that is not 32 bytes; fails when
the peer's bounded FIFO already contains the nonce; otherwise appends the
nonce, evicting oldest-first down to the per-peer capacity (clamped to a
minimum of 1 by the constructor), leaving every other peer's state
untouched — and the nonce just stored is immediately rejected if presented
again within the capacity window. -/
theorem check_and_store_spec (rp : ReplayState) (peer_id : String)
    (nonce : List Nat) (hcap : 1 ≤ rp.per_peer_capacity) :
    (nonce.length ≠ 32 →
      check_and_store rp peer_id nonce
        = .error "invalid nonce length for replay check") ∧
    (nonce.length = 32 → nonce ∈ rp.map peer_id →
      check_and_store rp peer_id nonce = .error "replayed hello nonce") ∧
    (nonce.length = 32 → nonce ∉ rp.map peer_id →
      ∃ rp2, check_and_store rp peer_id nonce = .ok rp2
        ∧ rp2.per_peer_capacity = rp.per_peer_capacity
        ∧ rp2.map peer_id
            = (rp.map peer_id ++ [nonce]).drop
                ((rp.map peer_id).length + 1 - rp.per_peer_capacity)
        ∧ (∀ p, p ≠ peer_id → rp2.map p = rp.map p)
        ∧ (rp2.map peer_id).length ≤ rp.per_peer_capacity
        ∧ check_and_store rp2 peer_id nonce = .error "replayed hello nonce") ∧
    (∀ c, (ReplayState.new c).per_peer_capacity = Nat.max c 1) := by
  refine ⟨fun h => ?_, fun h hmem => ?_, fun h hmem => ?_, fun c => rfl⟩
  · rw [check_and_store, if_pos h]
  · rw [check_and_store, if_neg (by simp [h]), if_pos hmem]
  · have hk : (rp.map peer_id).length + 1 - rp.per_peer_capacity
        ≤ (rp.map peer_id).length := by omega
    have hq2 : evictFront rp.per_peer_capacity (rp.map peer_id ++ [nonce])
        = (rp.map peer_id ++ [nonce]).drop
            ((rp.map peer_id).length + 1 - rp.per_peer_capacity) := by
      rw [evictFront_eq_drop]
      simp only [List.length_append, List.length_cons, List.length_nil]
    refine ⟨⟨rp.per_peer_capacity, fun p => if p = peer_id
        then evictFront rp.per_peer_capacity (rp.map peer_id ++ [nonce])
        else rp.map p⟩,
      by rw [check_and_store, if_neg (by simp [h]), if_neg hmem], rfl,
      ?_, ?_, ?_, ?_⟩
    · dsimp only
      rw [if_pos rfl, hq2]
    · intro p hp
      dsimp only
      rw [if_neg hp]
    · dsimp only
      rw [if_pos rfl, hq2]
      simp only [List.length_drop, List.length_append, List.length_cons,
        List.length_nil]
      omega
    · have hmem2 : nonce ∈ (if peer_id = peer_id
          then evictFront rp.per_peer_capacity (rp.map peer_id ++ [nonce])
          else rp.map peer_id) := by
        rw [if_pos rfl, hq2, List.drop_append_of_le_length hk]
        exact List.mem_append_right _ (List.mem_singleton.mpr rfl)
      rw [check_and_store]
      dsimp only
      rw [if_neg (by simp [h]), if_pos hmem2]

/-- Witness for the replay-protector theorem: storing a fresh 32-byte nonce
in an empty protector of capacity 2 succeeds, and re-presenting it fails. -/
theorem check_and_store_spec_witness :
    ∃ rp2, check_and_store (ReplayState.new 2) "peer1" (List.replicate 32 7)
        = .ok rp2
      ∧ rp2.per_peer_capacity = (ReplayState.new 2).per_peer_capacity
      ∧ rp2.map "peer1"
          = ((ReplayState.new 2).map "peer1" ++ [List.replicate 32 7]).drop
              (((ReplayState.new 2).map "peer1").length + 1
                - (ReplayState.new 2).per_peer_capacity)
      ∧ (∀ p, p ≠ "peer1" → rp2.map p = (ReplayState.new 2).map p)
      ∧ (rp2.map "peer1").length ≤ (ReplayState.new 2).per_peer_capacity
      ∧ check_and_store rp2 "peer1" (List.replicate 32 7)
          = .error "replayed hello nonce" :=
  (check_and_store_spec (ReplayState.new 2) "peer1" (List.replicate 32 7)
    (by decide)).2.2.1 (by simp) (by simp [ReplayState.new])

/-! ## Clipboard history (src/core/src/history.rs) -/

structure ClipboardEntry where
  id : String
  content : String
  source_peer : String
  timestamp : Nat
deriving DecidableEq

/-- `ClipboardHistory`: bounded FIFO of entries, front = oldest. -/
structure ClipboardHistory where
  max_entries : Nat
  entries : List ClipboardEntry

/-- `ClipboardHistory::new`: capacity clamped to a minimum of 1
(`max_entries.max(1)`). -/
def ClipboardHistory.new (max_entries : Nat) : ClipboardHistory :=
  ⟨Nat.max max_entries 1, []⟩

/-- `ClipboardHistory::record`: append the new entry at the back, then evict
from the front while over capacity; returns the generated id.  The randomly
generated id and the wall-clock timestamp are parameters of the model. -/
def ClipboardHistory.record (h : ClipboardHistory)
    (content source_peer id : String) (timestamp : Nat) :
    String × ClipboardHistory :=
  (id, ⟨h.max_entries,
    evictFront h.max_entries
      (h.entries ++ [⟨id, content, source_peer, timestamp⟩])⟩)

/-- `ClipboardHistory::get_recent`: newest first, up to `limit`. -/
def ClipboardHistory.get_recent (h : ClipboardHistory) (limit : Nat) :
    List ClipboardEntry :=
  h.entries.reverse.take limit

/-- `ClipboardHistory::get_for_peer`: newest first, filtered by source peer,
up to `limit`. -/
def ClipboardHistory.get_for_peer (h : ClipboardHistory) (peer_name : String)
    (limit : Nat) : List ClipboardEntry :=
  (h.entries.reverse.filter (fun e => e.source_peer == peer_name)).take limit

/-- `ClipboardHistory::get_by_id`: linear scan by id. -/
def ClipboardHistory.get_by_id (h : ClipboardHistory) (id : String) :
    Option ClipboardEntry :=
  h.entries.find? (fun e => e.id == id)

/-- One user-visible operation on the history. -/
inductive HistOp where
  | record (content source_peer id : String) (timestamp : Nat)
  | get_recent (limit : Nat)
  | get_for_peer (peer_name : String) (limit : Nat)
  | get_by_id (id : String)

/-- State change of one operation; the read operations return values but do
not change the state. -/
def applyOp (h : ClipboardHistory) (op : HistOp) : ClipboardHistory :=
  match op with
  | .record c s i t => (h.record c s i t).2
  | .get_recent _ => h
  | .get_for_peer _ _ => h
  | .get_by_id _ => h

theorem applyOp_inv (h : ClipboardHistory) (op : HistOp)
    (hh : h.entries.length ≤ h.max_entries) :
    (applyOp h op).entries.length ≤ (applyOp h op).max_entries
      ∧ (applyOp h op).max_entries = h.max_entries := by
  cases op with
  | record c s i t =>
    refine ⟨?_, rfl⟩
    dsimp [applyOp, ClipboardHistory.record]
    rw [evictFront_eq_drop]
    simp only [List.length_drop, List.length_append, List.length_cons,
      List.length_nil]
    omega
  | get_recent limit => exact ⟨hh, rfl⟩
  | get_for_peer p limit => exact ⟨hh, rfl⟩
  | get_by_id i => exact ⟨hh, rfl⟩

theorem foldl_applyOp_inv (ops : List HistOp) (h : ClipboardHistory)
    (hh : h.entries.length ≤ h.max_entries) :
    (ops.foldl applyOp h).entries.length ≤ (ops.foldl applyOp h).max_entries
      ∧ (ops.foldl applyOp h).max_entries = h.max_entries := by
  induction ops generalizing h with
  | nil => exact ⟨hh, rfl⟩
  | cons op ops ih =>
    simp only [List.foldl_cons]
    obtain ⟨h1, h2⟩ := applyOp_inv h op hh
    obtain ⟨g1, g2⟩ := ih (applyOp h op) h1
    exact ⟨g1, by rw [g2, h2]⟩

/-- C7: after any sequence of record/get_recent/get_for_peer/get_by_id
operations on a history constructed with capacity `c`, the number of stored
entries never exceeds `max c 1`; and `record` appends the new entry at the
back, evicting the oldest entries once the bound is exceeded. -/
theorem history_capacity_invariant (c : Nat) (ops : List HistOp) :
    (ops.foldl applyOp (ClipboardHistory.new c)).entries.length ≤ Nat.max c 1
      ∧ (∀ h content source_peer id ts,
          ((ClipboardHistory.record h content source_peer id ts).2).entries
            = (h.entries ++ [ClipboardEntry.mk id content source_peer ts]).drop
                (h.entries.length + 1 - h.max_entries)) := by
  constructor
  · obtain ⟨h1, h2⟩ := foldl_applyOp_inv ops (ClipboardHistory.new c)
      (by simp [ClipboardHistory.new])
    calc (ops.foldl applyOp (ClipboardHistory.new c)).entries.length
        ≤ (ops.foldl applyOp (ClipboardHistory.new c)).max_entries := h1
      _ = Nat.max c 1 := h2
  · intro h content source_peer id ts
    dsimp [ClipboardHistory.record]
    rw [evictFront_eq_drop]
    simp only [List.length_append, List.length_cons, List.length_nil]

/-! ## Peer registry (src/core/src/mesh.rs) -/

inductive PeerStatus where
  | Online
  | Offline
deriving DecidableEq

structure PeerEntry where
  peer_id : String
  display_name : String
  last_addr : Option String
  status : PeerStatus
deriving DecidableEq

/-- `PeerRegistry::set_online`: transition an existing entry to Online,
updating the last address when one is supplied; a missing entry is silently
ignored. -/
def set_online (m : String → Option PeerEntry) (peer_id : String)
    (addr : Option String) : String → Option PeerEntry :=
  match m peer_id with
  | none => m
  | some entry =>
    fun p => if p = peer_id
      then some { entry with
          status := .Online,
          last_addr := (match addr with
            | some a => some a
            | none => entry.last_addr) }
      else m p

/-- `PeerRegistry::set_offline`: transition an existing entry to Offline; a
missing entry is silently ignored. -/
def set_offline (m : String → Option PeerEntry) (peer_id : String) :
    String → Option PeerEntry :=
  match m peer_id with
  | none => m
  | some entry =>
    fun p => if p = peer_id then some { entry with status := .Offline }
      else m p

/-- C8: on a peer-id with no registry entry, `set_online` and `set_offline`
leave the registry completely unchanged; on a peer-id with an entry, only
that entry changes, and only its status and (for `set_online` with an
address) its last address. -/
theorem registry_set_spec (m : String → Option PeerEntry) (peer_id : String)
    (addr : Option String) :
    (m peer_id = none →
      set_online m peer_id addr = m ∧ set_offline m peer_id = m) ∧
    (∀ e, m peer_id = some e →
      set_online m peer_id addr peer_id
          = some { e with
              status := .Online,
              last_addr := (match addr with
                | some a => some a
                | none => e.last_addr) }
        ∧ (∀ p, p ≠ peer_id → set_online m peer_id addr p = m p)
        ∧ set_offline m peer_id peer_id = some { e with status := .Offline }
        ∧ (∀ p, p ≠ peer_id → set_offline m peer_id p = m p)) := by
  constructor
  · intro hn
    constructor
    · simp only [set_online, hn]
    · simp only [set_offline, hn]
  · intro e he
    refine ⟨?_, fun p hp => ?_, ?_, fun p hp => ?_⟩
    · simp [set_online, he]
    · simp [set_online, he, hp]
    · simp [set_offline, he]
    · simp [set_offline, he, hp]

/-- A concrete one-entry registry for the witness. -/
def regM : String → Option PeerEntry :=
  fun p => if p = "a" then some ⟨"a", "Alice", none, .Offline⟩ else none

/-- Witness for the registry theorem at the concrete one-entry registry. -/
theorem registry_set_spec_witness :
    set_online regM "a" (some "10.0.0.2:1") "a"
        = some ⟨"a", "Alice", some "10.0.0.2:1", .Online⟩
      ∧ (∀ p, p ≠ "a" → set_online regM "a" (some "10.0.0.2:1") p = regM p)
      ∧ set_offline regM "a" "a" = some ⟨"a", "Alice", none, .Offline⟩
      ∧ (∀ p, p ≠ "a" → set_offline regM "a" p = regM p) :=
  (registry_set_spec regM "a" (some "10.0.0.2:1")).2
    ⟨"a", "Alice", none, .Offline⟩ (by simp [regM])

/-! ## Pairing confirmation code (src/core/src/pairing.rs) -/

/-- Rust zero-padded 6-wide decimal formatting, for arguments below 1e6:
the six decimal digits of `m`, most significant first. -/
def fmt06 (m : Nat) : String :=
  String.mk ((List.range 6).map (fun i => Char.ofNat (48 + m / 10 ^ (5 - i) % 10)))

/-- `derive_confirmation_code` from pairing.rs, with the blake3 hash
abstracted as a parameter `h` (32 output bytes in the source); the streaming
`hasher.update` calls hash the concatenation of their inputs.  The peer-id
strings enter the hash as their byte lists.  The digits come from the first
four hash bytes read little-endian (`u32::from_le_bytes`), reduced modulo
1,000,000.  As a Lean function it is deterministic by construction. -/
def derive_confirmation_code (h : List Nat → List Nat)
    (nonce peer_a_id peer_b_id : List Nat) : String :=
  let hash := h (nonce ++ peer_a_id ++ peer_b_id)
  let n := hash.getD 0 0 + 256 * hash.getD 1 0 + 2 ^ 16 * hash.getD 2 0
    + 2 ^ 24 * hash.getD 3 0
  fmt06 (n % 1000000)

/-- A four-byte little-endian u32 read, for the spec's formula. -/
def leU32 (l : List Nat) : Nat :=
  l.getD 0 0 + 256 * l.getD 1 0 + 2 ^ 16 * l.getD 2 0 + 2 ^ 24 * l.getD 3 0

/-- Modelled from the spec's words: code = first four bytes of
hash(nonce, peer-id a, peer-id b) as a little-endian u32, mod 1,000,000,
zero-padded to six decimal digits. -/
def spec_confirmation_code (h : List Nat → List Nat)
    (nonce peer_a_id peer_b_id : List Nat) : String :=
  fmt06 (leU32 ((h (nonce ++ peer_a_id ++ peer_b_id)).take 4) % 1000000)

theorem getD_take_lt (l : List Nat) (i n : Nat) (hi : i < n) :
    (l.take n).getD i 0 = l.getD i 0 := by
  simp [List.getD_eq_getElem?_getD, List.getElem?_take, hi]

theorem fmt06_length (m : Nat) : (fmt06 m).length = 6 := by
  simp [fmt06, String.length]

theorem fmt06_digits (m : Nat) : ∀ ch ∈ (fmt06 m).data, ch.isDigit = true := by
  intro ch hch
  simp only [fmt06, String.mk] at hch
  obtain ⟨i, hi, rfl⟩ := List.mem_map.mp hch
  have hd : m / 10 ^ (5 - i) % 10 < 10 := Nat.mod_lt _ (by norm_num)
  set d := m / 10 ^ (5 - i) % 10 with hdd
  interval_cases d <;> decide

/-- C6: `derive_confirmation_code` equals the spec formula — the first four
bytes of the hash of nonce and both peer ids, read as a little-endian u32,
reduced modulo 1,000,000, rendered as a zero-padded 6-digit decimal string —
and its output always has exactly 6 characters, all ASCII digits. -/
theorem derive_confirmation_code_spec (h : List Nat → List Nat)
    (nonce peer_a_id peer_b_id : List Nat) :
    derive_confirmation_code h nonce peer_a_id peer_b_id
        = spec_confirmation_code h nonce peer_a_id peer_b_id
      ∧ (derive_confirmation_code h nonce peer_a_id peer_b_id).length = 6
      ∧ ∀ ch ∈ (derive_confirmation_code h nonce peer_a_id peer_b_id).data,
          ch.isDigit = true := by
  have heq : derive_confirmation_code h nonce peer_a_id peer_b_id
      = spec_confirmation_code h nonce peer_a_id peer_b_id := by
    rw [derive_confirmation_code, spec_confirmation_code, leU32]
    rw [getD_take_lt _ 0 4 (by omega), getD_take_lt _ 1 4 (by omega),
      getD_take_lt _ 2 4 (by omega), getD_take_lt _ 3 4 (by omega)]
  exact ⟨heq, fmt06_length _, fmt06_digits _⟩

/-! ## Session handshake (src/core/src/session.rs) -/

/-- Byte list of a string (peer ids in this repository are ASCII hex). -/
def strBytes (s : String) : List Nat := s.data.map Char.toNat

/-- `hello_transcript` from protocol.rs: the canonical byte transcript the
Hello signature covers. -/
def hello_transcript (version : Nat) (peer_id : String)
    (identity_pk nonce : List Nat) : List Nat :=
  strBytes "openclipboard-hello" ++ [version]
    ++ beBytes 4 (strBytes peer_id).length ++ strBytes peer_id
    ++ beBytes 4 identity_pk.length ++ identity_pk
    ++ beBytes 4 nonce.length ++ nonce

/-- The typed message a received handshake payload parses to: the `Hello`
variant with its five fields, or any other variant (identified by its
msg_type byte) — the handshake distinguishes only Hello from the rest. -/
inductive Msg where
  | Hello (peer_id : String) (version : Nat)
      (identity_pk_b64 nonce_b64 sig_b64 : String)
  | Other (msg_type : Nat)

/-- `TrustRecord` from trust.rs (`created_at` as epoch milliseconds). -/
structure TrustRecord where
  peer_id : String
  identity_pk : List Nat
  display_name : String
  created_at : Nat
deriving DecidableEq

/-- The external functions the handshake calls, abstracted: serde_json
payload parsing, base64 decoding, the blake3 lowercase-hex peer-id
derivation (`Ed25519Identity::peer_id_from_public_key`), and Ed25519
signature verification (`Ed25519Identity::verify_with_public_key`, taking
data, signature, public key). -/
structure HsEnv where
  parseMessage : List Nat → Option Msg
  b64decode : String → Option (List Nat)
  hashHex : List Nat → String
  verify : List Nat → List Nat → List Nat → Bool

/-- The session fields the handshake reads: the optional trust store (a map
from peer-id to record), the optional replay protector, the pairing mode. -/
structure SessionCfg where
  trust_store : Option (String → Option TrustRecord)
  replay : Option ReplayState
  pairing_mode : Bool

/-- What `conn.recv()` under `tokio::time::timeout` produced: a timeout, a
transport receive error, or a frame. -/
inductive RecvOutcome where
  | timeout
  | recvErr
  | frame (f : Frame)

/-- Outcome of `handshake_with_timeout`: whether `conn.close()` was called
before returning, the returned peer id or error, and the replay-protector
state afterwards. -/
structure HsResult where
  closed : Bool
  result : Except String String
  replay : Option ReplayState

/-- The trust gate at the end of the handshake (session.rs lines 189-203),
checked only when a trust store is configured and the session is not in
pairing mode: an unknown peer or a pinned-key mismatch closes the
connection and fails; otherwise the peer id is returned. -/
def trustGate (trust : Option (String → Option TrustRecord)) (pairing : Bool)
    (peer_id : String) (identity_pk : List Nat)
    (replay : Option ReplayState) : HsResult :=
  match trust with
  | some store =>
    if pairing then ⟨false, .ok peer_id, replay⟩
    else
      match store peer_id with
      | none => ⟨true, .error "untrusted peer", replay⟩
      | some rec =>
        if rec.identity_pk ≠ identity_pk
          then ⟨true, .error "trusted peer public key mismatch", replay⟩
          else ⟨false, .ok peer_id, replay⟩
  | none => ⟨false, .ok peer_id, replay⟩

/-- The body of `handshake_with_timeout` after a frame arrives (session.rs
lines 143-209).  Only `frame.payload` is inspected.  Branches that call
`self.conn.close()` before failing set `closed := true`; branches that
propagate an error with the `?` operator (parse and base64 failures, the
replay rejection) do not. -/
def handshakeOnPayload (env : HsEnv) (sess : SessionCfg)
    (payload : List Nat) : HsResult :=
  match env.parseMessage payload with
  | none => ⟨false, .error "invalid json payload", sess.replay⟩
  | some (.Other _) => ⟨true, .error "expected Hello message", sess.replay⟩
  | some (.Hello peer_id version pk64 n64 s64) =>
    match env.b64decode pk64 with
    | none => ⟨false, .error "invalid base64", sess.replay⟩
    | some identity_pk =>
      match env.b64decode n64 with
      | none => ⟨false, .error "invalid base64", sess.replay⟩
      | some nonce =>
        match env.b64decode s64 with
        | none => ⟨false, .error "invalid base64", sess.replay⟩
        | some sig =>
          if identity_pk.length ≠ 32
            then ⟨true, .error "invalid identity_pk length", sess.replay⟩
          else if nonce.length ≠ 32
            then ⟨true, .error "invalid nonce length", sess.replay⟩
          else if sig.length ≠ 64
            then ⟨true, .error "invalid signature length", sess.replay⟩
          else if env.hashHex identity_pk ≠ peer_id
            then ⟨true, .error "peer_id/public_key mismatch", sess.replay⟩
          else if env.verify (hello_transcript version peer_id identity_pk nonce)
              sig identity_pk = false
            then ⟨true, .error "invalid hello signature", sess.replay⟩
          else
            match sess.replay with
            | some rp =>
              match check_and_store rp peer_id nonce with
              | .error e => ⟨false, .error e, some rp⟩
              | .ok rp2 =>
                trustGate sess.trust_store sess.pairing_mode peer_id
                  identity_pk (some rp2)
            | none =>
              trustGate sess.trust_store sess.pairing_mode peer_id
                identity_pk none

/-- `Session::handshake_with_timeout` (session.rs lines 135-210): sending
our own Hello is effect-free in this model; then the received outcome is
handled.  A timeout or a transport receive error propagates without closing
the connection (the source maps them through `?` with no `close()` call). -/
def handshake_with_timeout (env : HsEnv) (sess : SessionCfg)
    (recvd : RecvOutcome) : HsResult :=
  match recvd with
  | .timeout => ⟨false, .error "handshake timed out", sess.replay⟩
  | .recvErr => ⟨false, .error "connection recv failed", sess.replay⟩
  | .frame f => handshakeOnPayload env sess f.payload

theorem trustGate_ok (trust : Option (String → Option TrustRecord))
    (pairing : Bool) (peer_id : String) (identity_pk : List Nat)
    (replay : Option ReplayState) (store : String → Option TrustRecord)
    (pid : String) (htrust : trust = some store) (hpair : pairing = false)
    (hok : (trustGate trust pairing peer_id identity_pk replay).result
      = .ok pid) :
    pid = peer_id
      ∧ ∃ rec, store peer_id = some rec ∧ rec.identity_pk = identity_pk := by
  subst htrust
  subst hpair
  unfold trustGate at hok
  dsimp only at hok
  cases hrec : store peer_id with
  | none => rw [hrec] at hok; simp at hok
  | some rec =>
    rw [hrec] at hok
    by_cases hpk : rec.identity_pk = identity_pk
    · simp [hpk] at hok
      exact ⟨hok.symm, rec, rfl, hpk⟩
    · simp [hpk] at hok

/-- C1: whenever `handshake_with_timeout` returns successfully on a session
with a trust store and pairing mode off, it returned the peer id carried in
the received Hello, that peer id equals the hex-hash-derived id of the
identity public key presented in the Hello, and the trust store holds a
record under that peer id whose stored identity public key equals the
presented key. -/
theorem handshake_nonpairing_returns_trusted_peer (env : HsEnv)
    (sess : SessionCfg) (recvd : RecvOutcome)
    (store : String → Option TrustRecord) (pid : String)
    (htrust : sess.trust_store = some store)
    (hpair : sess.pairing_mode = false)
    (hok : (handshake_with_timeout env sess recvd).result = .ok pid) :
    ∃ f version pk64 n64 s64 identity_pk,
      recvd = .frame f
      ∧ env.parseMessage f.payload = some (.Hello pid version pk64 n64 s64)
      ∧ env.b64decode pk64 = some identity_pk
      ∧ pid = env.hashHex identity_pk
      ∧ ∃ rec, store pid = some rec ∧ rec.identity_pk = identity_pk := by
  cases recvd with
  | timeout => simp [handshake_with_timeout] at hok
  | recvErr => simp [handshake_with_timeout] at hok
  | frame f =>
    have hok2 : (handshakeOnPayload env sess f.payload).result = .ok pid := hok
    unfold handshakeOnPayload at hok2
    cases hparse : env.parseMessage f.payload with
    | none => rw [hparse] at hok2; simp at hok2
    | some msg =>
      rw [hparse] at hok2
      cases msg with
      | Other t => simp at hok2
      | Hello peer_id version pk64 n64 s64 =>
        dsimp only at hok2
        cases hpk : env.b64decode pk64 with
        | none => rw [hpk] at hok2; simp at hok2
        | some identity_pk =>
          rw [hpk] at hok2
          dsimp only at hok2
          cases hn : env.b64decode n64 with
          | none => rw [hn] at hok2; simp at hok2
          | some nonce =>
            rw [hn] at hok2
            dsimp only at hok2
            cases hsg : env.b64decode s64 with
            | none => rw [hsg] at hok2; simp at hok2
            | some sig =>
              rw [hsg] at hok2
              dsimp only at hok2
              by_cases h1 : identity_pk.length ≠ 32
              · rw [if_pos h1] at hok2; simp at hok2
              · rw [if_neg h1] at hok2
                by_cases h2 : nonce.length ≠ 32
                · rw [if_pos h2] at hok2; simp at hok2
                · rw [if_neg h2] at hok2
                  by_cases h3 : sig.length ≠ 64
                  · rw [if_pos h3] at hok2; simp at hok2
                  · rw [if_neg h3] at hok2
                    by_cases h4 : env.hashHex identity_pk ≠ peer_id
                    · rw [if_pos h4] at hok2; simp at hok2
                    · rw [if_neg h4] at hok2
                      have h4eq : env.hashHex identity_pk = peer_id :=
                        not_not.mp h4
                      by_cases h5 : env.verify
                          (hello_transcript version peer_id identity_pk nonce)
                          sig identity_pk = false
                      · rw [if_pos h5] at hok2; simp at hok2
                      · rw [if_neg h5] at hok2
                        cases hrp : sess.replay with
                        | none =>
                          rw [hrp] at hok2
                          dsimp only at hok2
                          obtain ⟨hpid, rec, hrec, hrecpk⟩ :=
                            trustGate_ok _ _ _ _ _ store pid htrust hpair hok2
                          subst hpid
                          exact ⟨f, version, pk64, n64, s64, identity_pk, rfl,
                            hparse, hpk, h4eq.symm, rec, hrec, hrecpk⟩
                        | some rp =>
                          rw [hrp] at hok2
                          dsimp only at hok2
                          cases hcs : check_and_store rp peer_id nonce with
                          | error e => rw [hcs] at hok2; simp at hok2
                          | ok rp2 =>
                            rw [hcs] at hok2
                            dsimp only at hok2
                            obtain ⟨hpid, rec, hrec, hrecpk⟩ :=
                              trustGate_ok _ _ _ _ _ store pid htrust hpair hok2
                            subst hpid
                            exact ⟨f, version, pk64, n64, s64, identity_pk,
                              rfl, hparse, hpk, h4eq.symm, rec, hrec, hrecpk⟩

/-- A concrete trust store for the handshake witnesses: one record for peer
id "P" with a pinned 32-byte key. -/
def storeW : String → Option TrustRecord :=
  fun p => if p = "P" then some ⟨"P", List.replicate 32 7, "peer", 0⟩ else none

/-- A concrete handshake environment: every payload parses to a Hello for
"P"; "PK" decodes to the pinned 32-byte key, "N" to a 32-byte nonce, any
other string to a 64-byte signature; every key hashes to "P"; every
signature verifies. -/
def envW : HsEnv :=
  ⟨fun _ => some (.Hello "P" 0 "PK" "N" "S"),
   fun s => if s = "PK" then some (List.replicate 32 7)
     else if s = "N" then some (List.replicate 32 8)
     else some (List.replicate 64 9),
   fun _ => "P",
   fun _ _ _ => true⟩

/-- A concrete session: trust store present, no replay protector, pairing
mode off. -/
def sessW : SessionCfg := ⟨some storeW, none, false⟩

/-- Witness for the non-pairing handshake theorem: with the concrete
environment and session, a received frame (whose header msg_type is 2, not
Hello's 1) completes the handshake with peer id "P". -/
theorem handshake_nonpairing_witness :
    ∃ f version pk64 n64 s64 identity_pk,
      (.frame ⟨0, 2, 1, 0, []⟩ : RecvOutcome) = .frame f
      ∧ envW.parseMessage f.payload = some (.Hello "P" version pk64 n64 s64)
      ∧ envW.b64decode pk64 = some identity_pk
      ∧ "P" = envW.hashHex identity_pk
      ∧ ∃ rec, storeW "P" = some rec ∧ rec.identity_pk = identity_pk :=
  handshake_nonpairing_returns_trusted_peer envW sessW (.frame ⟨0, 2, 1, 0, []⟩)
    storeW "P" rfl rfl (by rfl)

/-- Counterexample to C2 as stated: on a receive timeout the handshake
returns an error, but the connection has not been closed — the source maps
the timeout through `?` without calling `conn.close()`. -/
theorem handshake_timeout_not_closed_counterexample :
    (handshake_with_timeout envW sessW .timeout).result
        = .error "handshake timed out"
      ∧ (handshake_with_timeout envW sessW .timeout).closed = false :=
  ⟨rfl, rfl⟩

theorem trustGate_closed_error (trust : Option (String → Option TrustRecord))
    (pairing : Bool) (peer_id : String) (identity_pk : List Nat)
    (replay : Option ReplayState)
    (hcl : (trustGate trust pairing peer_id identity_pk replay).closed
      = true) :
    ∃ e, (trustGate trust pairing peer_id identity_pk replay).result
      = .error e := by
  unfold trustGate at hcl ⊢
  cases trust with
  | none => simp at hcl
  | some store =>
    dsimp only at hcl ⊢
    cases pairing with
    | true => simp at hcl
    | false =>
      rw [if_neg (by decide)] at hcl ⊢
      cases hrec : store peer_id with
      | none => exact ⟨_, rfl⟩
      | some rec =>
        rw [hrec] at hcl
        dsimp only at hcl ⊢
        by_cases hpk : rec.identity_pk ≠ identity_pk
        · rw [if_pos hpk]
          exact ⟨_, rfl⟩
        · rw [if_neg hpk] at hcl
          simp at hcl

/-- C2 (amended): of the handshake failure causes, a non-Hello message, a
failed length check, a failed binding check, a failed signature check, and
a trust rejection close the transport connection before the error is
returned; but a receive timeout, a transport receive error, a payload that
fails to parse, a base64 field that fails to decode, and a replay rejection
return the error without closing the connection.  Whenever the connection
was closed, an error is returned. -/
theorem handshake_close_behavior (env : HsEnv) (sess : SessionCfg) :
    ((handshake_with_timeout env sess .timeout).closed = false
      ∧ (handshake_with_timeout env sess .timeout).result
          = .error "handshake timed out") ∧
    ((handshake_with_timeout env sess .recvErr).closed = false) ∧
    (∀ f, env.parseMessage f.payload = none →
      (handshake_with_timeout env sess (.frame f)).closed = false) ∧
    (∀ f t, env.parseMessage f.payload = some (.Other t) →
      (handshake_with_timeout env sess (.frame f)).closed = true) ∧
    (∀ f p v pk64 n64 s64,
      env.parseMessage f.payload = some (.Hello p v pk64 n64 s64) →
      (env.b64decode pk64 = none →
        (handshake_with_timeout env sess (.frame f)).closed = false) ∧
      (∀ pk, env.b64decode pk64 = some pk → env.b64decode n64 = none →
        (handshake_with_timeout env sess (.frame f)).closed = false) ∧
      (∀ pk nn, env.b64decode pk64 = some pk → env.b64decode n64 = some nn →
        env.b64decode s64 = none →
        (handshake_with_timeout env sess (.frame f)).closed = false)) ∧
    (∀ f p v pk64 n64 s64 pk nn sg,
      env.parseMessage f.payload = some (.Hello p v pk64 n64 s64) →
      env.b64decode pk64 = some pk →
      env.b64decode n64 = some nn →
      env.b64decode s64 = some sg →
      ((pk.length ≠ 32 ∨ (pk.length = 32 ∧ nn.length ≠ 32)
          ∨ (pk.length = 32 ∧ nn.length = 32 ∧ sg.length ≠ 64)) →
        (handshake_with_timeout env sess (.frame f)).closed = true) ∧
      (pk.length = 32 → nn.length = 32 → sg.length = 64 →
        env.hashHex pk ≠ p →
        (handshake_with_timeout env sess (.frame f)).closed = true) ∧
      (pk.length = 32 → nn.length = 32 → sg.length = 64 →
        env.hashHex pk = p →
        env.verify (hello_transcript v p pk nn) sg pk = false →
        (handshake_with_timeout env sess (.frame f)).closed = true) ∧
      (∀ rp e, pk.length = 32 → nn.length = 32 → sg.length = 64 →
        env.hashHex pk = p →
        env.verify (hello_transcript v p pk nn) sg pk = true →
        sess.replay = some rp →
        check_and_store rp p nn = .error e →
        (handshake_with_timeout env sess (.frame f)).closed = false
          ∧ (handshake_with_timeout env sess (.frame f)).result
              = .error e) ∧
      (∀ store, pk.length = 32 → nn.length = 32 → sg.length = 64 →
        env.hashHex pk = p →
        env.verify (hello_transcript v p pk nn) sg pk = true →
        sess.trust_store = some store → sess.pairing_mode = false →
        (sess.replay = none ∨ ∃ rp rp2, sess.replay = some rp
          ∧ check_and_store rp p nn = .ok rp2) →
        (store p = none ∨ ∃ rec, store p = some rec ∧ rec.identity_pk ≠ pk) →
        (handshake_with_timeout env sess (.frame f)).closed = true)) ∧
    (∀ recvd, (handshake_with_timeout env sess recvd).closed = true →
      ∃ e, (handshake_with_timeout env sess recvd).result = .error e) := by
  refine ⟨⟨rfl, rfl⟩, rfl, fun f hparse => ?_, fun f t hparse => ?_,
    fun f p v pk64 n64 s64 hparse => ?_,
    fun f p v pk64 n64 s64 pk nn sg hparse hpk hn hs => ?_,
    fun recvd hcl => ?_⟩
  · simp [handshake_with_timeout, handshakeOnPayload, hparse]
  · simp [handshake_with_timeout, handshakeOnPayload, hparse]
  · refine ⟨fun hpk => ?_, fun pk hpk hn => ?_, fun pk nn hpk hn hs => ?_⟩
    · simp [handshake_with_timeout, handshakeOnPayload, hparse, hpk]
    · simp [handshake_with_timeout, handshakeOnPayload, hparse, hpk, hn]
    · simp [handshake_with_timeout, handshakeOnPayload, hparse, hpk, hn, hs]
  · refine ⟨fun hlen => ?_, fun h32 hn32 hs64 hbind => ?_,
      fun h32 hn32 hs64 hbind hver => ?_,
      fun rp e h32 hn32 hs64 hbind hver hrp hcs => ?_,
      fun store h32 hn32 hs64 hbind hver htrust hpair hrpok hrej => ?_⟩
    · rcases hlen with h | ⟨h32, h⟩ | ⟨h32, hn32, h⟩
      · simp [handshake_with_timeout, handshakeOnPayload, hparse, hpk, hn,
          hs, h]
      · simp [handshake_with_timeout, handshakeOnPayload, hparse, hpk, hn,
          hs, h32, h]
      · simp [handshake_with_timeout, handshakeOnPayload, hparse, hpk, hn,
          hs, h32, hn32, h]
    · simp [handshake_with_timeout, handshakeOnPayload, hparse, hpk, hn, hs,
        h32, hn32, hs64, hbind]
    · simp [handshake_with_timeout, handshakeOnPayload, hparse, hpk, hn, hs,
        h32, hn32, hs64, hbind, hver]
    · refine ⟨?_, ?_⟩ <;>
        simp [handshake_with_timeout, handshakeOnPayload, hparse, hpk, hn,
          hs, h32, hn32, hs64, hbind, hver, hrp, hcs]
    · rcases hrpok with hrpn | ⟨rp, rp2, hrp, hcs⟩
      · rcases hrej with hstore | ⟨rec, hstore, hne⟩
        · simp [handshake_with_timeout, handshakeOnPayload, trustGate,
            hparse, hpk, hn, hs, h32, hn32, hs64, hbind, hver, htrust,
            hpair, hrpn, hstore]
        · simp [handshake_with_timeout, handshakeOnPayload, trustGate,
            hparse, hpk, hn, hs, h32, hn32, hs64, hbind, hver, htrust,
            hpair, hrpn, hstore, hne]
      · rcases hrej with hstore | ⟨rec, hstore, hne⟩
        · simp [handshake_with_timeout, handshakeOnPayload, trustGate,
            hparse, hpk, hn, hs, h32, hn32, hs64, hbind, hver, htrust,
            hpair, hrp, hcs, hstore]
        · simp [handshake_with_timeout, handshakeOnPayload, trustGate,
            hparse, hpk, hn, hs, h32, hn32, hs64, hbind, hver, htrust,
            hpair, hrp, hcs, hstore, hne]
  · cases recvd with
    | timeout => simp [handshake_with_timeout] at hcl
    | recvErr => simp [handshake_with_timeout] at hcl
    | frame f =>
      have hcl2 : (handshakeOnPayload env sess f.payload).closed = true := hcl
      show ∃ e, (handshakeOnPayload env sess f.payload).result = .error e
      unfold handshakeOnPayload at hcl2 ⊢
      cases hparse : env.parseMessage f.payload with
      | none => rw [hparse] at hcl2; simp at hcl2
      | some msg =>
        rw [hparse] at hcl2
        cases msg with
        | Other t => exact ⟨_, rfl⟩
        | Hello peer_id version pk64 n64 s64 =>
          dsimp only at hcl2 ⊢
          cases hpk : env.b64decode pk64 with
          | none => rw [hpk] at hcl2; simp at hcl2
          | some identity_pk =>
            rw [hpk] at hcl2
            dsimp only at hcl2 ⊢
            cases hn : env.b64decode n64 with
            | none => rw [hn] at hcl2; simp at hcl2
            | some nonce =>
              rw [hn] at hcl2
              dsimp only at hcl2 ⊢
              cases hs : env.b64decode s64 with
              | none => rw [hs] at hcl2; simp at hcl2
              | some sig =>
                rw [hs] at hcl2
                dsimp only at hcl2 ⊢
                by_cases h1 : identity_pk.length ≠ 32
                · rw [if_pos h1]; exact ⟨_, rfl⟩
                · rw [if_neg h1] at hcl2 ⊢
                  by_cases h2 : nonce.length ≠ 32
                  · rw [if_pos h2]; exact ⟨_, rfl⟩
                  · rw [if_neg h2] at hcl2 ⊢
                    by_cases h3 : sig.length ≠ 64
                    · rw [if_pos h3]; exact ⟨_, rfl⟩
                    · rw [if_neg h3] at hcl2 ⊢
                      by_cases h4 : env.hashHex identity_pk ≠ peer_id
                      · rw [if_pos h4]; exact ⟨_, rfl⟩
                      · rw [if_neg h4] at hcl2 ⊢
                        by_cases h5 : env.verify (hello_transcript version
                            peer_id identity_pk nonce) sig identity_pk = false
                        · rw [if_pos h5]; exact ⟨_, rfl⟩
                        · rw [if_neg h5] at hcl2 ⊢
                          cases hrp : sess.replay with
                          | none =>
                            rw [hrp] at hcl2
                            exact trustGate_closed_error _ _ _ _ _ hcl2
                          | some rp =>
                            rw [hrp] at hcl2
                            dsimp only at hcl2 ⊢
                            cases hcs : check_and_store rp peer_id nonce with
                            | error e => rw [hcs] at hcl2; simp at hcl2
                            | ok rp2 =>
                              rw [hcs] at hcl2
                              dsimp only at hcl2 ⊢
                              exact trustGate_closed_error _ _ _ _ _ hcl2

/-- A replay protector that has already seen the 32-byte nonce that "N"
decodes to in `envW`. -/
def rpW : ReplayState := ⟨16, fun _ => [List.replicate 32 8]⟩

/-- The concrete session with the replay protector, pairing mode off. -/
def sessR : SessionCfg := ⟨some storeW, some rpW, false⟩

/-- Witness for the close-behavior theorem: a replayed Hello nonce makes
the handshake fail with the replay error while leaving the connection
open. -/
theorem handshake_close_behavior_witness :
    (handshake_with_timeout envW sessR (.frame ⟨0, 1, 1, 0, []⟩)).closed
        = false
      ∧ (handshake_with_timeout envW sessR (.frame ⟨0, 1, 1, 0, []⟩)).result
          = .error "replayed hello nonce" :=
  ((handshake_close_behavior envW sessR).2.2.2.2.2.1 ⟨0, 1, 1, 0, []⟩ "P" 0
    "PK" "N" "S" (List.replicate 32 7) (List.replicate 32 8)
    (List.replicate 64 9) rfl rfl rfl rfl).2.2.2.1 rpW "replayed hello nonce"
    (by simp) (by simp) (by simp) rfl rfl rfl (by rfl)

/-- C9: the accept/reject decision of `handshake_with_timeout` depends only
on the payload bytes of the received frame: two frames with identical
payloads but arbitrary differing header fields (version, msg_type,
stream_id, seq) produce identical outcomes; in particular changing only the
header msg_type — e.g. to a value that does not mark the frame as a Hello —
never changes the outcome, so a frame whose payload parses as a valid,
verifiable Hello is accepted regardless of its header. -/
theorem handshake_depends_only_on_payload (env : HsEnv) (sess : SessionCfg) :
    (∀ f1 f2 : Frame, f1.payload = f2.payload →
      handshake_with_timeout env sess (.frame f1)
        = handshake_with_timeout env sess (.frame f2)) ∧
    (∀ f t, handshake_with_timeout env sess
        (.frame ⟨f.version, t, f.stream_id, f.seq, f.payload⟩)
      = handshake_with_timeout env sess (.frame f)) := by
  refine ⟨fun f1 f2 hp => ?_, fun f t => rfl⟩
  show handshakeOnPayload env sess f1.payload
    = handshakeOnPayload env sess f2.payload
  rw [hp]

/-- Witness: a frame with the Hello msg_type header byte and one with a
non-Hello msg_type plus different version/stream/seq, same payload, same
handshake outcome. -/
theorem handshake_depends_only_on_payload_witness :
    handshake_with_timeout envW sessW (.frame ⟨0, 1, 1, 0, []⟩)
      = handshake_with_timeout envW sessW (.frame ⟨7, 99, 3, 12, []⟩) :=
  (handshake_depends_only_on_payload envW sessW).1 ⟨0, 1, 1, 0, []⟩
    ⟨7, 99, 3, 12, []⟩ rfl

end OpenClipboard
